import Mathlib

/-
  Verification development for the PGN evaluation-extraction pipeline
  (src/pgn-reader.py).

  The program reads PGN game records from stdin, splits them into blocks,
  parses each block with a minimal visitor (FastGameBuilder) driven by the
  external PGN grammar parser, replays the resulting move chain on a board,
  and emits "FEN;score" lines for plies carrying a finite centipawn
  evaluation.  External capabilities (the PGN tokenizer, the chess board,
  FEN rendering, and the comment-to-evaluation extraction) are embedded
  abstractly: a record's movetext is the stream of visitor events the
  grammar parser produces for it, a board is the stack of moves pushed
  since the initial position, and a comment is summarized by what the
  evaluation extractor sees in it.
-/

namespace PgnReader

/-- Side colors, as used by the evaluation's point-of-view conversion. -/
inductive Color
  | white
  | black
deriving DecidableEq, Repr

/-- An engine score: either a finite centipawn value or a mate distance.
Mirrors python-chess `Cp` / `Mate`. -/
inductive EScore
  | cp (v : Int)
  | mate (n : Int)
deriving DecidableEq, Repr

/-- Negation of a score (used when converting between points of view). -/
def EScore.negate : EScore → EScore
  | .cp v => .cp (-v)
  | .mate n => .mate (-n)

/-- Mirrors `Score.is_mate()`. -/
def EScore.isMate : EScore → Bool
  | .cp _ => false
  | .mate _ => true

/-- Mirrors `Score.score()`: the centipawn value, `none` for mate scores. -/
def EScore.score : EScore → Option Int
  | .cp v => some v
  | .mate _ => none

/-- A score together with the point of view it is expressed in.
Mirrors python-chess `PovScore`. -/
structure PovScore where
  score : EScore
  pov : Color
deriving DecidableEq, Repr

/-- Mirrors `PovScore.white()`: the score from White's point of view. -/
def PovScore.white (ps : PovScore) : EScore :=
  match ps.pov with
  | .white => ps.score
  | .black => ps.score.negate

/-- What the external evaluation extractor finds in one comment text:
either a parseable evaluation (the value carried by the comment's
eval tag, which is expressed from White's point of view by convention),
or nothing recognizable. -/
inductive Ann
  | val (e : EScore)
  | junk
deriving DecidableEq, Repr

/-- Mirrors `GameNode.eval()`: parse the node's comment, if any, into a
`PovScore` (the eval tag's value, White's point of view). -/
def annEval : Option Ann → Option PovScore
  | some (.val e) => some ⟨e, .white⟩
  | _ => none

/-- A move, abstractly (the external capability's move object). -/
abbrev Move := String

/-- A board is modelled by its move stack since the initial position:
the only operations the worker uses are `reset` (the empty stack),
`push`, and `fen`. -/
abbrev Board := List Move

/-- Mirrors `board.push(move)`. -/
def pushMove (b : Board) (m : Move) : Board := b ++ [m]

/-- Mirrors `board.fen()`: the position identifier is a function of the
moves applied since the initial position (abstract encoding). -/
def fen (b : Board) : String := String.intercalate " " b

/-- One node of the chain built by `FastGameBuilder`: the move that led to
it and the comment attached to it, if any. -/
structure Node where
  move : Move
  comment : Option Ann
deriving DecidableEq, Repr

/-- The game produced by `FastGameBuilder`: the root comment and the chain
of nodes reached by `add_variation` from the running tip.  `game.next()`
walks `nodes` in order. -/
structure Game where
  comment : Option Ann
  nodes : List Node
deriving DecidableEq, Repr

/-- One event the external PGN grammar parser feeds to the visitor while
reading one record's movetext. -/
inductive PElem
  | comment (a : Ann)
  | move (m : Move)
  | varStart
  | varEnd
  | nag
  | result
  | err
deriving DecidableEq, Repr

/-- The out-of-band abort signal raised by the visitor (class `Skip`). -/
inductive Skip
  | mk
deriving DecidableEq, Repr

/-- The mutable state of `FastGameBuilder` during one parse: the root
comment, the chain of nodes built so far (most recent first), and the
`first` flag (no comment seen yet). -/
structure BuilderSt where
  rootC : Option Ann
  nodesRev : List Node
  first : Bool
deriving DecidableEq, Repr

/-- One visitor callback, mirroring `FastGameBuilder`:
`visit_comment` overwrites the current tip's comment and raises `Skip`
when this is the first comment seen and it parses to no evaluation;
`visit_move` appends a node at the tip; `begin_variation`,
`end_variation`, `visit_nag` and `visit_result` do nothing;
`handle_error` raises `Skip`. -/
def stepEv (st : BuilderSt) : PElem → Except Skip BuilderSt
  | .comment a =>
      if st.first && (annEval (some a)).isNone then
        .error .mk
      else
        match st.nodesRev with
        | [] => .ok ⟨some a, [], false⟩
        | n :: rest => .ok ⟨st.rootC, { n with comment := some a } :: rest, false⟩
  | .move m => .ok ⟨st.rootC, ⟨m, none⟩ :: st.nodesRev, st.first⟩
  | .varStart => .ok st
  | .varEnd => .ok st
  | .nag => .ok st
  | .result => .ok st
  | .err => .error .mk

/-- Drive the visitor over a stream of events (the external parser's
traversal of one record), propagating `Skip`. -/
def runEvents (st : BuilderSt) : List PElem → Except Skip BuilderSt
  | [] => .ok st
  | e :: rest =>
      match stepEv st e with
      | .error s => .error s
      | .ok st' => runEvents st' rest

/-- Mirrors `chess.pgn.read_game(chunk, Visitor=FastGameBuilder)` on one
record: `begin_game` initializes the builder, the parser feeds the
record's events, and the built game is returned (or `Skip` escapes). -/
def readGame (events : List PElem) : Except Skip Game :=
  match runEvents ⟨none, [], true⟩ events with
  | .error s => .error s
  | .ok st => .ok ⟨st.rootC, st.nodesRev.reverse⟩

/-- Renders `white_eval.score()` inside the output f-string. -/
def scoreStr (e : EScore) : String :=
  match e.score with
  | some v => toString v
  | none => "None"

/-- A batch: the list of output lines produced from one record. -/
abbrev Batch := List String

/-- The extraction loop of `worker_main`: walk the chain from the first
child, push each node's move onto the board, and for a node whose
comment parses to an evaluation that is not a mate score append
`fen;score` (the FEN after the node's move, the score from White's
point of view). -/
def extractFrom (b : Board) : List Node → List String
  | [] => []
  | n :: rest =>
      let b2 := pushMove b n.move
      match annEval n.comment with
      | none => extractFrom b2 rest
      | some ev =>
          if ev.white.isMate then
            extractFrom b2 rest
          else
            (fen b2 ++ ";" ++ scoreStr ev.white) :: extractFrom b2 rest

/-- The batch built by `worker_main` for one parsed game: the board is
reset to the initial position, then the mainline chain is walked. -/
def extract (g : Game) : Batch := extractFrom [] g.nodes

/-- One iteration of the worker loop on one record: on `Skip` the worker
executes `continue` and pushes nothing; otherwise it builds and pushes
the (possibly empty) batch. -/
def processRecord (events : List PElem) : Option Batch :=
  match readGame events with
  | .error _ => none
  | .ok g => some (extract g)

/-- The sequence of batches one worker pushes onto the result queue while
processing the given records in order. -/
def workerRun (recs : List (List PElem)) : List Batch :=
  recs.filterMap processRecord

/-- Mirrors Python's `str.isspace()`: nonempty and all whitespace. -/
def pyIsSpace (s : String) : Bool :=
  !s.isEmpty && s.toList.all Char.isWhitespace

/-- The splitter loop of `main`: accumulate lines; a whitespace line
after movetext has begun emits the accumulated record (joined), clears
the buffer and resets the flag; the current line is then appended to the
buffer in every case. -/
def splitGo (buf : List String) (after : Bool) : List String → List String
  | [] => []
  | l :: rest =>
      if pyIsSpace l then
        if after then
          String.join buf :: splitGo [l] false rest
        else
          splitGo (buf ++ [l]) true rest
      else
        splitGo (buf ++ [l]) after rest

/-- The records the splitter pushes onto the work queue for the given
input lines. -/
def splitter (ls : List String) : List String := splitGo [] false ls

/-- A well-formed input block: header lines, a blank separator line,
movetext lines, a blank terminator line. -/
structure RawBlock where
  headers : List String
  movetext : List String
deriving DecidableEq, Repr

/-- The canonical blank line. -/
def blankLine : String := "\n"

/-- The lines of one well-formed block as they appear on the input. -/
def RawBlock.lines (r : RawBlock) : List String :=
  r.headers ++ [blankLine] ++ r.movetext ++ [blankLine]

/-- Well-formedness of a block: nonempty header and movetext sections
made of non-blank lines. -/
def RawBlock.WF (r : RawBlock) : Prop :=
  r.headers ≠ [] ∧ r.movetext ≠ [] ∧
  (∀ l ∈ r.headers, pyIsSpace l = false) ∧
  (∀ l ∈ r.movetext, pyIsSpace l = false)

instance (r : RawBlock) : Decidable r.WF := by
  unfold RawBlock.WF
  infer_instance

/-- The lines of a trailing partial block: movetext has begun but the
final blank line is missing at end of stream. -/
def partialLines (r : RawBlock) : List String :=
  r.headers ++ [blankLine] ++ r.movetext

/-- The records the splitter actually emits for a list of well-formed
blocks: the first record is its block minus the terminating blank line;
every later record additionally starts with the previous block's
terminating blank line (which the splitter appends to the freshly
cleared buffer). -/
def expectedRecs (buf : List String) : List RawBlock → List String
  | [] => []
  | b :: rest =>
      String.join (buf ++ b.headers ++ [blankLine] ++ b.movetext) ::
        expectedRecs [blankLine] rest

/-- The state of `print_results`: running position count, byte count, and
the `update` counter. -/
structure CollSt where
  posCount : Nat
  bytesCount : Nat
  update : Nat
deriving DecidableEq, Repr

/-- Initial collector state (`pos_count = 0`, `bytes_count = 0`,
`update = 100`). -/
def collInit : CollSt := ⟨0, 0, 100⟩

/-- One iteration of the collector loop on one batch: add the batch's
length to the position count and each line's length plus one to the byte
count; when `update` equals 100 a progress line is emitted (flag `true`)
and `update` resets to 0, otherwise `update` increments. -/
def collStep (st : CollSt) (batch : Batch) : CollSt × Bool :=
  let pos := st.posCount + batch.length
  let bytes := st.bytesCount + (batch.map (fun r => r.length + 1)).sum
  if st.update = 100 then
    (⟨pos, bytes, 0⟩, true)
  else
    (⟨pos, bytes, st.update + 1⟩, false)

/-- For each incoming batch, whether the collector emits a progress line
while processing it. -/
def emitFlags (st : CollSt) : List Batch → List Bool
  | [] => []
  | b :: rest =>
      let r := collStep st b
      r.2 :: emitFlags r.1 rest

/-- One splitter step as a state transformer over
(emitted records, buffer, flag); used to run the splitter incrementally
inside the pipeline model. -/
def splitStep1 (st : List String × List String × Bool) (l : String) :
    List String × List String × Bool :=
  if pyIsSpace l then
    if st.2.2 then
      (st.1 ++ [String.join st.2.1], [l], false)
    else
      (st.1, st.2.1 ++ [l], true)
  else
    (st.1, st.2.1 ++ [l], st.2.2)

/-- The splitter run as a fold, returning the emitted records together
with the final buffer and flag. -/
def splitRun (ls : List String) : List String × List String × Bool :=
  ls.foldl splitStep1 ([], [], false)

/-- The observable state of the splitter/work-queue part of the pipeline:
remaining input lines, the splitter's accumulation buffer and flag, the
bounded work queue's contents, and the records already taken by workers. -/
structure PipeSt where
  input : List String
  buf : List String
  after : Bool
  queue : List String
  consumed : List String
deriving DecidableEq, Repr

/-- Initial pipeline state for a given input. -/
def initSt (ls : List String) : PipeSt := ⟨ls, [], false, [], []⟩

/-- Interleaved small-step semantics of the splitter and the workers
against the bounded work queue of capacity `C`.  `in_queue.put` blocks
while the queue is full: the `emitRec` step is enabled only when the
queue holds fewer than `C` records. -/
inductive PStep (C : Nat) : PipeSt → PipeSt → Prop
  | readLine (s : PipeSt) (l : String) (rest : List String) :
      s.input = l :: rest →
      ¬(pyIsSpace l = true ∧ s.after = true) →
      PStep C s ⟨rest, s.buf ++ [l], pyIsSpace l || s.after, s.queue, s.consumed⟩
  | emitRec (s : PipeSt) (l : String) (rest : List String) :
      s.input = l :: rest →
      pyIsSpace l = true →
      s.after = true →
      s.queue.length < C →
      PStep C s ⟨rest, [l], false, s.queue ++ [String.join s.buf], s.consumed⟩
  | consume (s : PipeSt) (r : String) (q : List String) :
      s.queue = r :: q →
      PStep C s ⟨s.input, s.buf, s.after, q, s.consumed ++ [r]⟩

/-- Reachability of pipeline states from the initial state. -/
def PReach (C : Nat) (ls : List String) (s : PipeSt) : Prop :=
  Relation.ReflTransGen (PStep C) (initSt ls) s

/-- The event stream the grammar parser produces for a game in which
every ply's move is immediately followed by a comment carrying a finite
centipawn evaluation. -/
def evStream : List (Move × Int) → List PElem
  | [] => []
  | (m, v) :: rest => .move m :: .comment (.val (.cp v)) :: evStream rest

/-- The node such a ply contributes to the built chain. -/
def pNode (p : Move × Int) : Node := ⟨p.1, some (.val (.cp p.2))⟩

/-- The batch the extraction loop is expected to produce for such a game,
starting from the given board: one record per ply, in ply order, whose
FEN is the board after that ply's move and whose score is the ply's
centipawn value. -/
def expectedBatch (b : Board) : List (Move × Int) → List String
  | [] => []
  | (m, v) :: rest =>
      (fen (pushMove b m) ++ ";" ++ toString v) :: expectedBatch (pushMove b m) rest

/-- The first comment event's content in a record's event stream, if any. -/
def firstCommentAnn : List PElem → Option Ann
  | [] => none
  | .comment a :: _ => some a
  | _ :: rest => firstCommentAnn rest

/-- Whether an event is a variation delimiter. -/
def PElem.isVar : PElem → Bool
  | .varStart => true
  | .varEnd => true
  | _ => false

end PgnReader

namespace PgnReader

/-- Running the visitor over a fully evaluated game's stream with the
`first` flag already cleared appends one node per ply and never aborts. -/
theorem runEvents_evStream (plies : List (Move × Int)) (c : Option Ann) (rev : List Node) :
    runEvents ⟨c, rev, false⟩ (evStream plies) =
      .ok ⟨c, (plies.map pNode).reverse ++ rev, false⟩ := by
  induction plies generalizing rev with
  | nil => simp [evStream, runEvents]
  | cons p rest ih =>
    obtain ⟨m, v⟩ := p
    simp [evStream, runEvents, stepEv, annEval, pNode, ih]

/-- Parsing a fully evaluated game's stream yields one chain node per
ply, in ply order, each carrying its centipawn evaluation. -/
theorem readGame_evStream (plies : List (Move × Int)) :
    readGame (evStream plies) = .ok ⟨none, plies.map pNode⟩ := by
  cases plies with
  | nil => rfl
  | cons p rest =>
    obtain ⟨m, v⟩ := p
    simp [readGame, evStream, runEvents, stepEv, annEval, runEvents_evStream, pNode]

/-- The extraction loop over a fully evaluated chain produces exactly the
expected batch. -/
theorem extractFrom_pNode (plies : List (Move × Int)) (b : Board) :
    extractFrom b (plies.map pNode) = expectedBatch b plies := by
  induction plies generalizing b with
  | nil => rfl
  | cons p rest ih =>
    obtain ⟨m, v⟩ := p
    simp [extractFrom, expectedBatch, pNode, annEval, PovScore.white, EScore.isMate,
      scoreStr, EScore.score, ih]

/-- The expected batch has one record per ply. -/
theorem expectedBatch_length (plies : List (Move × Int)) (b : Board) :
    (expectedBatch b plies).length = plies.length := by
  induction plies generalizing b with
  | nil => rfl
  | cons p rest ih =>
    obtain ⟨m, v⟩ := p
    simp [expectedBatch, ih]

/-- C1: for a Record with M plies, each carrying a finite-centipawn
evaluation, the Parsing Worker pushes exactly one Batch of exactly M
PositionRecords, in ply order, where each record's FEN is the position
reached by sequentially applying the plies' moves to the initial position
(reflecting the board after that ply's move) and each score equals that
ply's centipawn value including sign. -/
theorem extraction_correct (plies : List (Move × Int)) :
    workerRun [evStream plies] = [expectedBatch [] plies] ∧
      (expectedBatch [] plies).length = plies.length := by
  constructor
  · simp [workerRun, List.filterMap, processRecord, readGame_evStream, extract,
      extractFrom_pNode]
  · exact expectedBatch_length plies []

/-- Whether a chain node carries a finite centipawn evaluation (a comment
that parses to an evaluation that is not a mate score). -/
def cpNode (n : Node) : Bool :=
  match annEval n.comment with
  | some ps => !ps.white.isMate
  | none => false

/-- The extraction loop produces exactly one record per node carrying a
finite centipawn evaluation. -/
theorem extractFrom_length (ns : List Node) (b : Board) :
    (extractFrom b ns).length = ns.countP cpNode := by
  induction ns generalizing b with
  | nil => rfl
  | cons n rest ih =>
    cases h : annEval n.comment with
    | none => simp [extractFrom, h, cpNode, List.countP_cons, ih]
    | some ps =>
      cases hm : ps.white.isMate <;>
        simp [extractFrom, h, hm, cpNode, List.countP_cons, ih]

/-- C4: for every parsed game, the Batch contains exactly one record per
ply whose evaluation is a finite centipawn value; a ply whose evaluation
is a mate-distance marker, whose comment is missing, or whose comment is
not a recognizable evaluation contributes zero PositionRecords. -/
theorem mate_and_unevaluated_excluded (g : Game) :
    (extract g).length = g.nodes.countP cpNode :=
  extractFrom_length g.nodes []

/-- C10: the emitted score is the evaluation converted to White's point
of view, with the White-positive sign convention, independent of which
side just moved: the first ply (after White's move) and the second ply
(after Black's move) both emit the eval tag's White-POV value unchanged,
including sign. -/
theorem white_pov_scores (m1 m2 : Move) (v1 v2 : Int) :
    processRecord [PElem.move m1, PElem.comment (Ann.val (EScore.cp v1)),
        PElem.move m2, PElem.comment (Ann.val (EScore.cp v2))] =
      some [fen [m1] ++ ";" ++ toString v1, fen [m1, m2] ++ ";" ++ toString v2] := by
  show processRecord (evStream [(m1, v1), (m2, v2)]) = _
  simp [processRecord, readGame_evStream, extract, extractFrom, pNode, annEval,
    PovScore.white, EScore.isMate, scoreStr, EScore.score, pushMove]

end PgnReader

namespace PgnReader

/-- Once a first comment has been accepted, the visitor never raises
`Skip` again on an error-free stream. -/
theorem runEvents_notFirst_ok (es : List PElem) (c : Option Ann) (rev : List Node)
    (h : PElem.err ∉ es) :
    ∃ st', runEvents ⟨c, rev, false⟩ es = .ok st' ∧ st'.first = false := by
  induction es generalizing c rev with
  | nil => exact ⟨_, rfl, rfl⟩
  | cons e rest ih =>
    have hr : PElem.err ∉ rest := fun hx => h (List.mem_cons_of_mem _ hx)
    cases e with
    | comment a =>
      cases rev with
      | nil => simpa [runEvents, stepEv] using ih (some a) [] hr
      | cons n rs => simpa [runEvents, stepEv] using ih c _ hr
    | move m => simpa [runEvents, stepEv] using ih c _ hr
    | varStart => simpa [runEvents, stepEv] using ih c rev hr
    | varEnd => simpa [runEvents, stepEv] using ih c rev hr
    | nag => simpa [runEvents, stepEv] using ih c rev hr
    | result => simpa [runEvents, stepEv] using ih c rev hr
    | err => exact absurd (List.mem_cons_self _ _) h

/-- On an error-free stream, parsing with the `first` flag set aborts
with `Skip` exactly when the first comment of the stream does not parse
into an evaluation. -/
theorem runEvents_first_skip (es : List PElem) (c : Option Ann) (rev : List Node)
    (h : PElem.err ∉ es) :
    (runEvents ⟨c, rev, true⟩ es = .error .mk ↔
      ∃ a, firstCommentAnn es = some a ∧ annEval (some a) = none) := by
  induction es generalizing c rev with
  | nil => simp [runEvents, firstCommentAnn]
  | cons e rest ih =>
    have hr : PElem.err ∉ rest := fun hx => h (List.mem_cons_of_mem _ hx)
    cases e with
    | comment a =>
      cases hEval : annEval (some a) with
      | none => simp [runEvents, stepEv, hEval, firstCommentAnn]
      | some ps =>
        cases rev with
        | nil =>
          obtain ⟨st', hok, _⟩ := runEvents_notFirst_ok rest (some a) [] hr
          simp [runEvents, stepEv, hEval, hok, firstCommentAnn]
        | cons n rs =>
          obtain ⟨st', hok, _⟩ := runEvents_notFirst_ok rest c
            ({ n with comment := some a } :: rs) hr
          simp [runEvents, stepEv, hEval, hok, firstCommentAnn]
    | move m => simpa [runEvents, stepEv, firstCommentAnn] using ih c _ hr
    | varStart => simpa [runEvents, stepEv, firstCommentAnn] using ih c rev hr
    | varEnd => simpa [runEvents, stepEv, firstCommentAnn] using ih c rev hr
    | nag => simpa [runEvents, stepEv, firstCommentAnn] using ih c rev hr
    | result => simpa [runEvents, stepEv, firstCommentAnn] using ih c rev hr
    | err => exact absurd (List.mem_cons_self _ _) h

/-- C2 (amended): for a Record whose movetext raises no parse error,
parsing is aborted with `Skip` exactly when the very first annotation seen
for the game does not parse into an evaluation — the annotation may be
attached to any node, root or after moves, not only to the root — and in
that case the Record contributes nothing (no batch is built). -/
theorem fast_exit_first_comment (es : List PElem) (h : PElem.err ∉ es) :
    ((∃ a, firstCommentAnn es = some a ∧ annEval (some a) = none) ↔
      readGame es = .error .mk) ∧
    (readGame es = .error .mk → processRecord es = none) := by
  constructor
  · rw [← runEvents_first_skip es none [] h]
    unfold readGame
    cases hr : runEvents ⟨none, [], true⟩ es with
    | error s => cases s; simp
    | ok st => simp
  · intro he
    simp [processRecord, he]

/-- Witness for the amended C2 on the record `1. e4 {not-an-eval}`. -/
theorem fast_exit_first_comment_witness :
    PElem.err ∉ [PElem.move "e4", PElem.comment Ann.junk] ∧
    (((∃ a, firstCommentAnn [PElem.move "e4", PElem.comment Ann.junk] = some a ∧
          annEval (some a) = none) ↔
        readGame [PElem.move "e4", PElem.comment Ann.junk] = .error .mk) ∧
      (readGame [PElem.move "e4", PElem.comment Ann.junk] = .error .mk →
        processRecord [PElem.move "e4", PElem.comment Ann.junk] = none)) :=
  ⟨by decide, fast_exit_first_comment _ (by decide)⟩

/-- C2 counterexample: in the record `1. e4 {not-an-eval}` the first
annotation is attached after a move, not to the root before any move has
been appended — yet the parse is still aborted with `Skip`, contradicting
the claim's characterization of when the abort happens. -/
theorem fast_exit_root_cex :
    readGame [PElem.move "e4", PElem.comment Ann.junk] = .error .mk ∧
    [PElem.move "e4", PElem.comment Ann.junk].head? = some (PElem.move "e4") := by
  exact ⟨rfl, rfl⟩

/-- C3 (amended): a Record whose parse is aborted with `Skip` contributes
nothing to the result queue: the worker's `continue` bypasses the push
step, so no Batch at all (rather than an empty Batch) is pushed for it. -/
theorem skip_pushes_nothing (recs1 recs2 : List (List PElem)) (es : List PElem)
    (h : readGame es = .error .mk) :
    workerRun (recs1 ++ es :: recs2) = workerRun (recs1 ++ recs2) := by
  simp [workerRun, List.filterMap_append, List.filterMap_cons, processRecord, h]

/-- Witness for the amended C3 on a record aborted by its first comment. -/
theorem skip_pushes_nothing_witness :
    readGame [PElem.comment Ann.junk] = .error .mk ∧
    workerRun ([] ++ [PElem.comment Ann.junk] :: []) = workerRun ([] ++ []) :=
  ⟨rfl, skip_pushes_nothing [] [] _ rfl⟩

/-- C3 counterexample: for the aborted record `{not-an-eval}` the worker
pushes no batch at all — the sequence of pushed batches is `[]`, not the
`[[]]` the claim's "empty Batch is pushed" would produce. -/
theorem skip_empty_batch_cex :
    readGame [PElem.comment Ann.junk] = .error .mk ∧
    workerRun [[PElem.comment Ann.junk]] = [] ∧
    ([] : List Batch) ≠ [[]] := by
  exact ⟨rfl, rfl, by simp⟩

end PgnReader

namespace PgnReader

/-- Variation delimiters are no-ops on the builder: running the visitor
over a stream is the same as running it over the stream with all
variation delimiters removed. -/
theorem runEvents_filter_var (es : List PElem) (st : BuilderSt) :
    runEvents st (es.filter (fun e => !e.isVar)) = runEvents st es := by
  induction es generalizing st with
  | nil => rfl
  | cons e rest ih =>
    cases e with
    | varStart =>
      rw [List.filter_cons, if_neg (by decide)]
      simpa [runEvents, stepEv] using ih st
    | varEnd =>
      rw [List.filter_cons, if_neg (by decide)]
      simpa [runEvents, stepEv] using ih st
    | comment a =>
      rw [List.filter_cons, if_pos (by rfl)]
      cases h : stepEv st (PElem.comment a) with
      | error s => simp [runEvents, h]
      | ok st' => simp [runEvents, h, ih st']
    | move m =>
      rw [List.filter_cons, if_pos (by rfl)]
      cases h : stepEv st (PElem.move m) with
      | error s => simp [runEvents, h]
      | ok st' => simp [runEvents, h, ih st']
    | nag =>
      rw [List.filter_cons, if_pos (by rfl)]
      cases h : stepEv st PElem.nag with
      | error s => simp [runEvents, h]
      | ok st' => simp [runEvents, h, ih st']
    | result =>
      rw [List.filter_cons, if_pos (by rfl)]
      cases h : stepEv st PElem.result with
      | error s => simp [runEvents, h]
      | ok st' => simp [runEvents, h, ih st']
    | err =>
      rw [List.filter_cons, if_pos (by rfl)]
      simp [runEvents, stepEv]

/-- C6 (amended): the variation-start and variation-end events are
ignored as pure no-ops on the builder, so a Record parses exactly as if
the variation delimiters were absent — consequently moves occurring
inside a variation ARE appended to the ParsedGame's single chain, are
replayed on the board like mainline moves, and can contribute
PositionRecords. -/
theorem variation_events_ignored (es : List PElem) :
    readGame es = readGame (es.filter (fun e => !e.isVar)) ∧
    workerRun [es] = workerRun [es.filter (fun e => !e.isVar)] := by
  have h := runEvents_filter_var es ⟨none, [], true⟩
  refine ⟨?_, ?_⟩
  · simp [readGame, h]
  · simp [workerRun, List.filterMap, processRecord, readGame, h]

/-- C6 counterexample: for the record
`{ [eval +0.10] } 1. e4 ( 1. d4 { [eval +0.05] } )` the variation move
d4 is appended to the chain after e4 and, carrying an evaluation, it
contributes a PositionRecord — contradicting the claim that variation
moves are never added to the mainline and cannot contribute. -/
theorem variation_moves_added_cex :
    (readGame [PElem.comment (Ann.val (EScore.cp 10)), PElem.move "e4", PElem.varStart,
        PElem.move "d4", PElem.comment (Ann.val (EScore.cp 5)),
        PElem.varEnd]).toOption.map (fun g => g.nodes.map Node.move) =
      some ["e4", "d4"] ∧
    processRecord [PElem.comment (Ann.val (EScore.cp 10)), PElem.move "e4", PElem.varStart,
        PElem.move "d4", PElem.comment (Ann.val (EScore.cp 5)), PElem.varEnd] =
      some ["e4 d4;5"] := by
  exact ⟨rfl, rfl⟩

end PgnReader

namespace PgnReader

/-- The blank line is whitespace in the Python sense. -/
theorem pyIsSpace_blankLine : pyIsSpace blankLine = true := by decide

/-- Non-blank lines are only accumulated by the splitter. -/
theorem splitGo_accum (ls : List String) (buf : List String) (after : Bool)
    (rest : List String) (h : ∀ l ∈ ls, pyIsSpace l = false) :
    splitGo buf after (ls ++ rest) = splitGo (buf ++ ls) after rest := by
  induction ls generalizing buf with
  | nil => simp
  | cons l ls ih =>
    have h1 : pyIsSpace l = false := h l (List.mem_cons_self _ _)
    have h2 : ∀ x ∈ ls, pyIsSpace x = false := fun x hx => h x (List.mem_cons_of_mem _ hx)
    simp [splitGo, h1, ih _ h2]

/-- Processing one well-formed block emits exactly one record — the
block's lines joined, without the terminating blank line — and leaves
the terminating blank line in the fresh buffer. -/
theorem splitGo_block (b : RawBlock) (buf : List String) (rest : List String)
    (h : b.WF) :
    splitGo buf false (b.lines ++ rest) =
      String.join (buf ++ b.headers ++ [blankLine] ++ b.movetext) ::
        splitGo [blankLine] false rest := by
  obtain ⟨-, -, h3, h4⟩ := h
  unfold RawBlock.lines
  rw [show b.headers ++ [blankLine] ++ b.movetext ++ [blankLine] ++ rest =
        b.headers ++ (blankLine :: (b.movetext ++ (blankLine :: rest))) from by simp,
    splitGo_accum _ _ _ _ h3]
  rw [splitGo, if_pos pyIsSpace_blankLine]
  simp only [Bool.false_eq_true, if_false]
  rw [splitGo_accum _ _ _ _ h4]
  rw [splitGo, if_pos pyIsSpace_blankLine]
  simp

/-- Running the splitter over a sequence of well-formed blocks followed
by arbitrary further lines: each block contributes exactly one record,
and the continuation starts with the last terminating blank line in the
buffer. -/
theorem splitGo_blocks (bs : List RawBlock) (buf : List String) (rest : List String)
    (h : ∀ b ∈ bs, b.WF) :
    splitGo buf false ((bs.map RawBlock.lines).flatten ++ rest) =
      expectedRecs buf bs ++
        splitGo (if bs.isEmpty then buf else [blankLine]) false rest := by
  induction bs generalizing buf with
  | nil => simp [expectedRecs]
  | cons b bs ih =>
    have hwf := h b (List.mem_cons_self _ _)
    have hrest : ∀ x ∈ bs, x.WF := fun x hx => h x (List.mem_cons_of_mem _ hx)
    rw [List.map_cons, List.flatten_cons, List.append_assoc, splitGo_block b buf _ hwf,
      ih [blankLine] hrest]
    cases bs <;> simp [expectedRecs]

/-- The splitter emits one record per block. -/
theorem expectedRecs_length (bs : List RawBlock) (buf : List String) :
    (expectedRecs buf bs).length = bs.length := by
  induction bs generalizing buf with
  | nil => rfl
  | cons b bs ih => simp [expectedRecs, ih]

/-- C5 (amended): for an input of K well-formed records the splitter
emits exactly K Records, in order; however an emitted Record's content is
not byte-identical to its block: the first Record is its block minus the
terminating blank line, and every later Record is the previous block's
terminating blank line followed by its own block minus the terminating
blank line. -/
theorem splitter_blocks (bs : List RawBlock) (h : ∀ b ∈ bs, b.WF) :
    splitter ((bs.map RawBlock.lines).flatten) = expectedRecs [] bs ∧
      (splitter ((bs.map RawBlock.lines).flatten)).length = bs.length := by
  have hmain : splitter ((bs.map RawBlock.lines).flatten) = expectedRecs [] bs := by
    have := splitGo_blocks bs [] [] h
    simp only [List.append_nil] at this
    rw [splitter, this]
    cases bs <;> simp [splitGo]
  exact ⟨hmain, by rw [hmain]; exact expectedRecs_length bs []⟩

/-- Witness for the amended C5 on two concrete well-formed blocks. -/
theorem splitter_blocks_witness :
    (∀ b ∈ [(⟨["h\n"], ["m\n"]⟩ : RawBlock), ⟨["i\n"], ["n\n"]⟩], b.WF) ∧
    (splitter (([(⟨["h\n"], ["m\n"]⟩ : RawBlock), ⟨["i\n"], ["n\n"]⟩].map
          RawBlock.lines).flatten) =
        expectedRecs [] [(⟨["h\n"], ["m\n"]⟩ : RawBlock), ⟨["i\n"], ["n\n"]⟩] ∧
      (splitter (([(⟨["h\n"], ["m\n"]⟩ : RawBlock), ⟨["i\n"], ["n\n"]⟩].map
          RawBlock.lines).flatten)).length = 2) :=
  ⟨by decide, splitter_blocks _ (by decide)⟩

/-- C5 counterexample: for K = 1 with the well-formed block
`h\n`, blank, `m\n`, blank, the splitter emits one record whose content
is "h\n\nm\n", which is not the original block's content
"h\n\nm\n\n" — the terminating blank line is missing. -/
theorem splitter_content_cex :
    splitter ["h\n", "\n", "m\n", "\n"] = ["h\n\nm\n"] ∧
    RawBlock.lines ⟨["h\n"], ["m\n"]⟩ = ["h\n", "\n", "m\n", "\n"] ∧
    "h\n\nm\n" ≠ String.join (RawBlock.lines ⟨["h\n"], ["m\n"]⟩) := by
  exact ⟨by decide, by decide, by decide⟩

/-- A trailing partial block — headers, blank separator, movetext begun
but no terminating blank line — is never emitted: the splitter's loop
ends with it still in the buffer. -/
theorem splitGo_partial (t : RawBlock) (buf : List String)
    (h3 : ∀ l ∈ t.headers, pyIsSpace l = false)
    (h4 : ∀ l ∈ t.movetext, pyIsSpace l = false) :
    splitGo buf false (partialLines t) = [] := by
  unfold partialLines
  rw [show t.headers ++ [blankLine] ++ t.movetext =
        t.headers ++ (blankLine :: (t.movetext ++ [])) from by simp,
    splitGo_accum _ _ _ _ h3]
  rw [splitGo, if_pos pyIsSpace_blankLine]
  simp only [Bool.false_eq_true, if_false]
  rw [splitGo_accum _ _ _ _ h4]
  rfl

/-- C7: an input ending in a trailing partial record (movetext begun but
no final blank line before end-of-stream) produces exactly the records of
its complete blocks: the trailing partial record is silently dropped,
never pushed onto the work queue, and contributes no output. -/
theorem trailing_partial_dropped (bs : List RawBlock) (t : RawBlock)
    (h : ∀ b ∈ bs, b.WF)
    (h3 : ∀ l ∈ t.headers, pyIsSpace l = false)
    (h4 : ∀ l ∈ t.movetext, pyIsSpace l = false)
    (h5 : t.movetext ≠ []) :
    splitter ((bs.map RawBlock.lines).flatten ++ partialLines t) =
      splitter ((bs.map RawBlock.lines).flatten) := by
  have h2 := splitGo_blocks bs [] [] h
  rw [List.append_nil] at h2
  rw [splitter, splitter, splitGo_blocks bs [] _ h, splitGo_partial t _ h3 h4, h2]
  simp [splitGo]

/-- Witness for C7 on one complete block followed by a partial one. -/
theorem trailing_partial_dropped_witness :
    (∀ b ∈ [(⟨["h\n"], ["m\n"]⟩ : RawBlock)], b.WF) ∧
    (∀ l ∈ [("i\n" : String)], pyIsSpace l = false) ∧
    (∀ l ∈ [("n\n" : String)], pyIsSpace l = false) ∧
    ([("n\n" : String)] ≠ []) ∧
    splitter (([(⟨["h\n"], ["m\n"]⟩ : RawBlock)].map RawBlock.lines).flatten ++
        partialLines ⟨["i\n"], ["n\n"]⟩) =
      splitter (([(⟨["h\n"], ["m\n"]⟩ : RawBlock)].map RawBlock.lines).flatten) :=
  ⟨by decide, by decide, by decide, by decide,
    trailing_partial_dropped _ ⟨["i\n"], ["n\n"]⟩ (by decide) (by decide) (by decide)
      (by decide)⟩

end PgnReader

namespace PgnReader

/-- C8 (code bug): evaluating the collector on 102 incoming batches shows
the progress line is emitted on the 1st batch and next on the 102nd —
not on the 101st — so consecutive progress lines are 101 batches apart,
while the claim (and the code's own comment) say the constant is 100:
`update` starts at 100, resets to 0 on a print, and is compared to 100
before being incremented, which yields a period of 101. -/
theorem progress_period_cex :
    (emitFlags collInit (List.replicate 102 ([] : Batch))).getD 0 false = true ∧
    (emitFlags collInit (List.replicate 102 ([] : Batch))).getD 99 false = false ∧
    (emitFlags collInit (List.replicate 102 ([] : Batch))).getD 100 false = false ∧
    (emitFlags collInit (List.replicate 102 ([] : Batch))).getD 101 false = true ∧
    (emitFlags collInit (List.replicate 102 ([] : Batch))).length = 102 := by
  set_option maxRecDepth 10000 in decide

/-- One fold step of the incremental splitter, appended on the right. -/
theorem splitRun_concat (ls : List String) (l : String) :
    splitRun (ls ++ [l]) = splitStep1 (splitRun ls) l := by
  simp [splitRun, List.foldl_append]

/-- The recursive splitter agrees with its fold formulation. -/
theorem splitGo_eq_foldl (ls : List String) (buf : List String) (after : Bool)
    (es : List String) :
    es ++ splitGo buf after ls = (ls.foldl splitStep1 (es, buf, after)).1 := by
  induction ls generalizing es buf after with
  | nil => simp [splitGo]
  | cons l rest ih =>
    cases hs : pyIsSpace l with
    | false => simp [splitGo, splitStep1, hs, ih]
    | true =>
      cases hafter : after with
      | false => simp [splitGo, splitStep1, hs, ih]
      | true =>
        rw [List.foldl_cons]
        rw [show splitStep1 (es, buf, true) l = (es ++ [String.join buf], [l], false) from by
          simp [splitStep1, hs]]
        rw [← ih]
        simp [splitGo, hs]

/-- The splitter's emitted records are the fold's first component. -/
theorem splitter_eq_splitRun (ls : List String) : splitter ls = (splitRun ls).1 := by
  have := splitGo_eq_foldl ls [] false []
  simpa [splitter, splitRun] using this

/-- The pipeline invariant: the work queue never exceeds its capacity,
and the records emitted so far (those consumed by workers followed by
those still queued) are exactly what the sequential splitter emits on the
already-processed prefix of the input, with the splitter's buffer and
flag matching. -/
def PInv (C : Nat) (ls : List String) (s : PipeSt) : Prop :=
  s.queue.length ≤ C ∧
  ∃ done, ls = done ++ s.input ∧
    splitRun done = (s.consumed ++ s.queue, s.buf, s.after)

/-- The invariant holds initially. -/
theorem pinv_init (C : Nat) (ls : List String) : PInv C ls (initSt ls) := by
  exact ⟨by simp [initSt], [], by simp [initSt], by simp [splitRun, initSt]⟩

/-- The invariant is preserved by every pipeline step. -/
theorem pinv_step (C : Nat) (ls : List String) (s s' : PipeSt)
    (h : PInv C ls s) (hs : PStep C s s') : PInv C ls s' := by
  obtain ⟨hlen, done, hdone, hrun⟩ := h
  cases hs with
  | readLine l rest hin hng =>
    refine ⟨by simpa using hlen, done ++ [l], by simp [hdone, hin], ?_⟩
    rw [splitRun_concat, hrun]
    cases hsp : pyIsSpace l with
    | false => simp [splitStep1, hsp]
    | true =>
      have hA : s.after = false := by
        cases hA : s.after
        · rfl
        · exact absurd ⟨hsp, hA⟩ hng
      simp [splitStep1, hsp, hA]
  | emitRec l rest hin hsp hA hlt =>
    refine ⟨by simpa using hlt, done ++ [l], by simp [hdone, hin], ?_⟩
    rw [splitRun_concat, hrun]
    simp [splitStep1, hsp, hA]
  | consume r q hq =>
    refine ⟨?_, done, by simpa using hdone, ?_⟩
    · have hlq : q.length ≤ s.queue.length := by simp [hq]
      simpa using le_trans hlq hlen
    · rw [hrun]
      simp [hq]

/-- C9: in every state reachable with work-queue capacity C, the queue
holds at most C Records (capacity bounds peak memory), every Record the
splitter has emitted on the consumed input prefix is either still queued
or already consumed, in order (no input is dropped), and no step can push
the queue beyond C — the enqueue step is enabled only below capacity,
which is exactly the blocking `put` of the bounded queue. -/
theorem backpressure_bound (C : Nat) (ls : List String) (s : PipeSt)
    (h : PReach C ls s) :
    s.queue.length ≤ C ∧
    (∃ done, ls = done ++ s.input ∧ splitter done = s.consumed ++ s.queue) ∧
    (∀ s', PStep C s s' → s'.queue.length ≤ C) := by
  have hinv : PInv C ls s := by
    unfold PReach at h
    induction h with
    | refl => exact pinv_init C ls
    | tail hR hstep ih => exact pinv_step C ls _ _ ih hstep
  obtain ⟨h1, done, h2, h3⟩ := hinv
  refine ⟨h1, ⟨done, h2, ?_⟩, fun s' hs' => (pinv_step C ls s s' ⟨h1, done, h2, h3⟩ hs').1⟩
  rw [splitter_eq_splitRun, h3]

/-- Witness for C9 at capacity 8 in the initial state of a one-line input. -/
theorem backpressure_bound_witness :
    (initSt ["h\n"]).queue.length ≤ 8 ∧
    (∃ done, ["h\n"] = done ++ (initSt ["h\n"]).input ∧
      splitter done = (initSt ["h\n"]).consumed ++ (initSt ["h\n"]).queue) ∧
    (∀ s', PStep 8 (initSt ["h\n"]) s' → s'.queue.length ≤ 8) :=
  backpressure_bound 8 ["h\n"] (initSt ["h\n"]) Relation.ReflTransGen.refl

end PgnReader
